import Mathlib

/-!
# Verification of the xianyu_spider scrape → extract → normalize → dedup → persist pipeline

Shallow embedding of the core of the `xianyu_spider` repository:

* `src/utils/price_parser.py` — `parse_price_to_cents`, `format_cents_to_display`;
* `src/cli_spider.py` / `src/spider.py` — `get_link_unique_key`, the
  `on_response` extraction callback, `save_to_db`, and the pagination loop of
  `scrape_xianyu`;
* `src/models.py` — the persisted `XianyuProduct` row.

Modelling conventions:

* Python strings are `List Char` (their sequence of Unicode scalar values).
  Python's Unicode digit classes (`str.isdigit`, the `\d` regex class and the
  digits accepted by `float`) are restricted to ASCII decimal digits; no other
  behaviour proved below depends on non-ASCII digits.
* Python `float` is `PyFloat`: an exact rational, an infinity, or NaN.  String
  conversion keeps the exact decimal value and maps magnitudes at or beyond the
  IEEE-double round-to-nearest overflow threshold to an infinity, exactly as
  CPython's `float(str)` does; rounding of in-range values to binary doubles is
  not modelled.  This abstraction is sound for every property proved here (sign,
  sentinel and overflow behaviour), and each concrete value appearing in a
  witness or counterexample is exactly representable as a double, so the model
  and CPython agree on it.
* Fallible Python code is `Except PyErr`; an uncaught exception is `.error`.
-/

deriving instance DecidableEq for Except

set_option maxRecDepth 16000

namespace XianyuSpider

/-- The Python exception classes that the embedded code can raise or catch. -/
inductive PyErr where
  | valueError
  | typeError
  | attributeError
  | overflowError
  deriving DecidableEq, Repr

/-! ## String primitives -/

/-- Numeric value of a decimal digit character. -/
def digitVal (c : Char) : Nat := c.toNat - 48

/-- Value of a most-significant-digit-first decimal digit string
(Python `int` on an all-digit string). -/
def evalDigits (l : List Char) : Nat := l.foldl (fun a c => 10 * a + digitVal c) 0

/-- Worker for `natToChars`; the fuel is at least the value, hence at least
its number of digits, so it never runs out. -/
def natDigitsFuel : Nat → Nat → List Char
  | 0, _ => []
  | _ + 1, 0 => []
  | fuel + 1, n => natDigitsFuel fuel (n / 10) ++ [Char.ofNat (48 + n % 10)]

/-- Decimal rendering of a natural number. -/
def natToChars (n : Nat) : List Char :=
  if n = 0 then ['0'] else natDigitsFuel n n

/-- Decimal rendering of an integer. -/
def intToChars (n : Int) : List Char :=
  if n < 0 then '-' :: natToChars n.natAbs else natToChars n.natAbs

/-- Python `str.strip()`: remove leading and trailing whitespace. -/
def pyStrip (l : List Char) : List Char :=
  ((l.dropWhile Char.isWhitespace).reverse.dropWhile Char.isWhitespace).reverse

/-- Python substring containment `pat in s`. -/
def strContains (pat : List Char) : List Char → Bool
  | [] => pat.isEmpty
  | c :: rest => pat.isPrefixOf (c :: rest) || strContains pat rest

/-- Worker for `pyReplace`; the fuel is the length of the remaining input, so
it never runs out. -/
def pyReplaceFuel (pat repl : List Char) : Nat → List Char → List Char
  | 0, l => l
  | _ + 1, [] => []
  | fuel + 1, c :: rest =>
    if pat.isPrefixOf (c :: rest) then
      repl ++ pyReplaceFuel pat repl fuel ((c :: rest).drop pat.length)
    else
      c :: pyReplaceFuel pat repl fuel rest

/-- Python `s.replace(pat, repl)`: replace all occurrences, leftmost first.
An empty pattern inserts the replacement around every character. -/
def pyReplace (pat repl l : List Char) : List Char :=
  if pat.isEmpty then repl ++ (l.map fun c => c :: repl).flatten
  else pyReplaceFuel pat repl l.length l

/-! ## Exact rational arithmetic that the kernel can evaluate

The library's `Rat.mul`, `Rat.add`, `Rat.sub` and `Rat.inv` are deliberately
irreducible, so `decide`/`rfl` cannot evaluate them on concrete inputs.  The
wrappers below compute through `mkRat` and are proved equal to the library
operations, so both evaluation and the algebraic lemmas are available. -/

/-- Reducible multiplication on `ℚ`. -/
def qMul (a b : ℚ) : ℚ := mkRat (a.num * b.num) (a.den * b.den)

/-- Reducible addition on `ℚ`. -/
def qAdd (a b : ℚ) : ℚ := mkRat (a.num * b.den + b.num * a.den) (a.den * b.den)

/-- Reducible subtraction on `ℚ`. -/
def qSub (a b : ℚ) : ℚ := qAdd a (-b)

/-- Reducible division of a rational by a natural number. -/
def qDivNat (a : ℚ) (n : Nat) : ℚ := mkRat a.num (a.den * n)

/-- Reducible `10 ^ e` on `ℚ` for an integer exponent. -/
def pow10 (e : Int) : ℚ :=
  if 0 ≤ e then ((10 ^ e.toNat : Nat) : ℚ) else mkRat 1 (10 ^ (-e).toNat)

/-! ## Python floats -/

/-- A Python float: an exact rational, an infinity, or NaN. -/
inductive PyFloat where
  | finite (q : ℚ)
  | inf (neg : Bool)
  | nan
  deriving DecidableEq, Repr

/-- The IEEE-double round-to-nearest overflow threshold `2^1024 - 2^970`:
decimal values whose magnitude reaches it convert to an infinity. -/
def floatMax : ℚ := ((2 ^ 1024 - 2 ^ 970 : Nat) : ℚ)

/-- Classify an exact rational as the Python float it converts to. -/
def mkPyFloat (q : ℚ) : PyFloat :=
  if q ≥ floatMax then .inf false
  else if q ≤ -floatMax then .inf true
  else .finite q

/-- Multiplication of a Python float by a positive rational constant. -/
def pyMulPos (x : PyFloat) (c : ℚ) : PyFloat :=
  match x with
  | .finite q => mkPyFloat (qMul q c)
  | .inf b => .inf b
  | .nan => .nan

/-- Python `round()` to an integer: round half to even. -/
def roundHalfEven (q : ℚ) : Int :=
  let f := Rat.floor q
  let r := qSub q ((f : Int) : ℚ)
  if r < mkRat 1 2 then f
  else if mkRat 1 2 < r then f + 1
  else if f % 2 = 0 then f else f + 1

/-- Split a float literal at the first exponent marker, if any. -/
def splitExp (s : List Char) : List Char × Option (List Char) :=
  match s.dropWhile (fun c => c != 'e' && c != 'E') with
  | [] => (s, Option.none)
  | _ :: rest => (s.takeWhile (fun c => c != 'e' && c != 'E'), some rest)

/-- Optionally signed all-digit integer (the exponent of a float literal). -/
def parseSignedInt (s : List Char) : Option Int :=
  match s with
  | '+' :: r => if r ≠ [] ∧ r.all Char.isDigit = true then some (evalDigits r) else Option.none
  | '-' :: r => if r ≠ [] ∧ r.all Char.isDigit = true then some (-(evalDigits r : Int)) else Option.none
  | r => if r ≠ [] ∧ r.all Char.isDigit = true then some (evalDigits r) else Option.none

/-- Digits-and-dot mantissa of a float literal, as its exact rational value. -/
def parseMantissa (s : List Char) : Option ℚ :=
  if s.all (fun c => c.isDigit || c == '.') = true ∧ s.count '.' ≤ 1 ∧ s.any Char.isDigit = true then
    some (qAdd ((evalDigits (s.takeWhile (· != '.')) : ℚ))
      (mkRat (evalDigits ((s.dropWhile (· != '.')).drop 1)) (10 ^ ((s.dropWhile (· != '.')).drop 1).length)))
  else Option.none

/-- Strip one leading sign. -/
def splitSign (s : List Char) : Bool × List Char :=
  match s with
  | '+' :: r => (false, r)
  | '-' :: r => (true, r)
  | r => (false, r)

/-- Python `float(s)` on ASCII input: optional surrounding whitespace and sign,
`inf` / `infinity` / `nan` (case-insensitive), or a decimal mantissa with an
optional exponent.  `Option.none` models `ValueError`.  (Underscore digit
separators and non-ASCII digits are not modelled; no property proved below
depends on them.) -/
def pyFloatParse (s0 : List Char) : Option PyFloat :=
  let sgn := splitSign (pyStrip s0)
  let low := sgn.2.map Char.toLower
  if low = "inf".data ∨ low = "infinity".data then some (.inf sgn.1)
  else if low = "nan".data then some .nan
  else
    match parseMantissa (splitExp sgn.2).1, (splitExp sgn.2).2 with
    | some mv, Option.none => some (mkPyFloat (if sgn.1 then -mv else mv))
    | some mv, some es =>
      match parseSignedInt es with
      | some ev => some (mkPyFloat (qMul (if sgn.1 then -mv else mv) (pow10 ev)))
      | Option.none => Option.none
    | Option.none, _ => Option.none

/-! ## Price normalizer (`src/utils/price_parser.py`) -/

/-- Characters kept by the cleaning regex `re.sub(r"[^\d.,万万]", "", _)`
(ASCII digits model `\d`). -/
def keepPriceChar (c : Char) : Bool := c.isDigit || c == '.' || c == ',' || c == '万'

/-- The five anomalous-price marker phrases. -/
def anomalyKeywords : List (List Char) :=
  ["异常".data, "暂无".data, "待定".data, "免费".data, "面议".data]

/-- `price_cents = int(round(price_value * 100)); return max(-1, price_cents)`
inside the `try` block.  `round` of an infinity raises `OverflowError`, of NaN
`ValueError`. -/
def centsOfValue (v : PyFloat) : Except PyErr Int :=
  match pyMulPos v 100 with
  | .finite q => .ok (max (-1) (roundHalfEven q))
  | .inf _ => .error .overflowError
  | .nan => .error .valueError

/-- The body of the `try` block of `parse_price_to_cents`: the 万 (ten-thousand)
branch multiplies the parsed number by 10000, the plain branch strips comma
separators; a failing `float()` raises `ValueError`. -/
def parsePriceBody (cleaned : List Char) : Except PyErr Int :=
  if '万' ∈ cleaned then
    let numStr := cleaned.filter (· != '万')
    if numStr = [] then .ok (-1)
    else
      match pyFloatParse numStr with
      | some f => centsOfValue (pyMulPos f 10000)
      | Option.none => .error .valueError
  else
    let numStr := cleaned.filter (· != ',')
    if numStr = [] then .ok (-1)
    else
      match pyFloatParse numStr with
      | some f => centsOfValue f
      | Option.none => .error .valueError

/-- `parse_price_to_cents` of `src/utils/price_parser.py`.  Empty/whitespace
input, an anomaly marker phrase, or nothing numeric left after cleaning return
the `-1` sentinel directly; the `except (ValueError, TypeError)` handler turns
those two exceptions from the body into `-1`; any other exception (notably
`OverflowError` from `round` of an infinity) propagates. -/
def parse_price_to_cents (priceStr : List Char) : Except PyErr Int :=
  let stripped := pyStrip priceStr
  if stripped = [] then .ok (-1)
  else if anomalyKeywords.any (fun k => strContains k stripped) then .ok (-1)
  else
    let cleaned := stripped.filter keepPriceChar
    if cleaned = [] then .ok (-1)
    else
      match parsePriceBody cleaned with
      | .error .valueError => .ok (-1)
      | .error .typeError => .ok (-1)
      | r => r

/-- `f"{x:.0f}"` of a Python float. -/
def fmtFixed0 (v : PyFloat) : List Char :=
  match v with
  | .finite q => intToChars (roundHalfEven q)
  | .inf false => "inf".data
  | .inf true => "-inf".data
  | .nan => "nan".data

/-- `f"{x:.1f}"` of a Python float (exactly one decimal digit). -/
def fmtFixed1 (v : PyFloat) : List Char :=
  match v with
  | .finite q =>
    let n := roundHalfEven (qMul q 10)
    (if n < 0 then ['-'] else []) ++ natToChars (n.natAbs / 10) ++ '.' :: natToChars (n.natAbs % 10)
  | .inf false => "inf".data
  | .inf true => "-inf".data
  | .nan => "nan".data

/-- `format_cents_to_display` of `src/utils/price_parser.py`: negative cents
display as the anomaly marker; ten thousand yuan and above use the 万 grouping
with one decimal digit; otherwise whole yuan. -/
def format_cents_to_display (priceCents : Int) : List Char :=
  if priceCents < 0 then "价格异常".data
  else
    if qDivNat ((priceCents : ℚ)) 100 ≥ 10000 then
      ('¥' :: fmtFixed1 (mkPyFloat (qDivNat (qDivNat ((priceCents : ℚ)) 100) 10000))) ++ "万".data
    else
      '¥' :: fmtFixed0 (mkPyFloat (qDivNat ((priceCents : ℚ)) 100))

/-! ## Link canonicalizer (`get_link_unique_key` of `src/cli_spider.py` and
`src/spider.py`) -/

/-- Python `link.split("&", 1)`. -/
def splitOnceAmp (l : List Char) : List (List Char) :=
  if '&' ∈ l then [l.takeWhile (· != '&'), (l.dropWhile (· != '&')).drop 1]
  else [l]

/-- `get_link_unique_key`: the part of the URL before its first `&` (the whole
URL when it has none). -/
def get_link_unique_key (link : List Char) : List Char :=
  let parts := splitOnceAmp link
  if parts.length ≥ 2 then parts.headD [] else link

/-- `dedup_key`: the MD5 hex digest of the canonicalized link
(`get_md5(get_link_unique_key(link))`).  The digest is an arbitrary function
parameter `md5`: every property proved below uses only that it is a function,
so each holds for the real MD5. -/
def dedup_key (md5 : List Char → List Char) (link : List Char) : List Char :=
  md5 (get_link_unique_key link)

/-! ## JSON-like values and the response extractor (`on_response`)

The extractor exists in two variants: `src/cli_spider.py` (CLI) and
`src/spider.py` (API).  They share the URL filter, the `safe_get` helper, the
response-level `try`/`except` around the whole item loop, and the per-field
processing; the CLI variant additionally computes `price_cents` and guards the
publish-time parameter with an `isinstance(_, str)` check that the API variant
lacks. -/

/-- A decoded JSON value as the Python code sees it after `response.json()`. -/
inductive PyVal where
  | pynone
  | str (s : List Char)
  | int (n : Int)
  | list (items : List PyVal)
  | dict (entries : List (List Char × PyVal))

/-- Python `v[key]` for a string key: succeeds only on a dict that has the
key; a missing key (`KeyError`) or a non-dict (`TypeError`) is `none`, which
`safe_get` turns into its default. -/
def pyGetItem (v : PyVal) (key : List Char) : Option PyVal :=
  match v with
  | .dict entries => (entries.find? fun kv => kv.1 == key).map fun kv => kv.2
  | _ => Option.none

/-- `safe_get(data, *keys, default=...)`: nested lookup with string keys; any
`KeyError`/`TypeError`/`IndexError` yields the default. -/
def safe_get (v : PyVal) (keys : List (List Char)) (dflt : PyVal) : PyVal :=
  match keys with
  | [] => v
  | k :: rest =>
    match pyGetItem v k with
    | some v2 => safe_get v2 rest dflt
    | Option.none => dflt

/-- Python `d.get(key, default)`: raises `AttributeError` when `d` is not a
dict. -/
def pyDictGet (v : PyVal) (key : List Char) (dflt : PyVal) : Except PyErr PyVal :=
  match v with
  | .dict entries => .ok (((entries.find? fun kv => kv.1 == key).map fun kv => kv.2).getD dflt)
  | _ => .error .attributeError

/-- Python `for x in v`: lists iterate their items, strings their characters,
dicts their keys; other values raise `TypeError`. -/
def pyIter (v : PyVal) : Except PyErr (List PyVal) :=
  match v with
  | .list items => .ok items
  | .str s => .ok (s.map fun c => .str [c])
  | .dict entries => .ok (entries.map fun kv => .str kv.1)
  | _ => .error .typeError

/-- Python truthiness of a JSON value. -/
def pyTruthy (v : PyVal) : Bool :=
  match v with
  | .pynone => false
  | .str s => !s.isEmpty
  | .int n => n != 0
  | .list items => !items.isEmpty
  | .dict entries => !entries.isEmpty

/-- Comma-separated concatenation (for `repr` of containers). -/
def joinComma (ls : List (List Char)) : List Char := (List.intersperse ", ".data ls).flatten

mutual

/-- Python `repr` of a JSON value (quote escaping inside strings is not
modelled; nothing proved below renders a string that needs it). -/
def pyReprOf : PyVal → List Char
  | .pynone => "None".data
  | .str s => Char.ofNat 39 :: s ++ [Char.ofNat 39]
  | .int n => intToChars n
  | .list items => '[' :: joinComma (pyReprList items) ++ [']']
  | .dict entries => '\x7b' :: joinComma (pyReprEntries entries) ++ ['\x7d']

/-- `repr` of the items of a list. -/
def pyReprList : List PyVal → List (List Char)
  | [] => []
  | v :: rest => pyReprOf v :: pyReprList rest

/-- `repr` of the `key: value` entries of a dict. -/
def pyReprEntries : List (List Char × PyVal) → List (List Char)
  | [] => []
  | (k, v) :: rest =>
    ((Char.ofNat 39 :: k ++ [Char.ofNat 39]) ++ ':' :: ' ' :: pyReprOf v) :: pyReprEntries rest

end

/-- Python `str()` of a JSON value: identity on strings, `repr` otherwise. -/
def pyStrOf (v : PyVal) : List Char :=
  match v with
  | .str s => s
  | .pynone => "None".data
  | .int n => intToChars n
  | .list items => pyReprOf (.list items)
  | .dict entries => pyReprOf (.dict entries)

/-- `main_data = safe_get(item, "data", "item", "main", "exContent", default={})`. -/
def mainDataOf (item : PyVal) : PyVal :=
  safe_get item ["data".data, "item".data, "main".data, "exContent".data] (.dict [])

/-- `click_params = safe_get(item, "data", "item", "main", "clickParam", "args",
default={})`. -/
def clickParamsOf (item : PyVal) : PyVal :=
  safe_get item ["data".data, "item".data, "main".data, "clickParam".data, "args".data] (.dict [])

/-- `str(p.get("text", ""))` for one price fragment (called only on dicts). -/
def textOfPart (p : PyVal) : List Char :=
  match p with
  | .dict entries =>
    pyStrOf (((entries.find? fun kv => kv.1 == "text".data).map fun kv => kv.2).getD (.str []))
  | _ => []

/-- The price-fragment processing of `on_response`: join the `text` of the dict
fragments, drop the `当前价` label, strip, and expand the 万 form through
`float()` (which raises `ValueError` on garbage) into `f"¥{x*10000:.0f}"`.
When the price field is not a list, the initial `"价格异常"` value survives. -/
def priceOf (mainData : PyVal) : Except PyErr (List Char) :=
  match safe_get mainData ["price".data] (.list []) with
  | .list parts =>
    let joined := ((parts.filter fun p =>
      match p with | .dict _ => true | _ => false).map textOfPart).flatten
    let stripped := pyStrip (pyReplace "当前价".data [] joined)
    if '万' ∈ stripped then
      match pyFloatParse (pyReplace "万".data [] (pyReplace "¥".data [] stripped)) with
      | some f => .ok ('¥' :: fmtFixed0 (pyMulPos f 10000))
      | Option.none => .error .valueError
    else .ok stripped
  | _ => .ok "价格异常".data

/-- `raw_link.replace("fleamarket://", "https://www.goofish.com/")`: raises
`AttributeError` when the target URL value is not a string. -/
def linkOf (rawLink : PyVal) : Except PyErr (List Char) :=
  match rawLink with
  | .str s => .ok (pyReplace "fleamarket://".data "https://www.goofish.com/".data s)
  | _ => .error .attributeError

/-- `f"https:{image_url}" if image_url and not image_url.startswith("http")
else image_url`: a truthy non-string raises `AttributeError` at
`.startswith`; a falsy value short-circuits and is kept as is. -/
def imageOf (imageUrl : PyVal) : Except PyErr PyVal :=
  if pyTruthy imageUrl then
    match imageUrl with
    | .str s =>
      if "http".data.isPrefixOf s then .ok (.str s)
      else .ok (.str ("https:".data ++ s))
    | _ => .error .attributeError
  else .ok imageUrl

/-- Publish-time handling of the CLI extractor: the value is used only when it
is a string of digits (`isinstance(..., str) and ....isdigit()`); otherwise the
"未知时间" sentinel (modelled as `none`) is produced without an error.  The
rendering `datetime.fromtimestamp(int(s)/1000).strftime("%Y-%m-%d %H:%M")` is
abstracted to the integer value itself (local-time formatting, and the range
error `fromtimestamp` raises beyond year 9999, are not modelled; no property
below depends on them).  `.get` on a non-dict raises `AttributeError`. -/
def pubTimeCli (cp : PyVal) : Except PyErr (Option Int) :=
  match cp with
  | .dict entries =>
    match (entries.find? fun kv => kv.1 == "publishTime".data).map (fun kv => kv.2) with
    | some (PyVal.str s) =>
      if s ≠ [] ∧ s.all Char.isDigit = true then .ok (some ((evalDigits s : Int)))
      else .ok Option.none
    | _ => .ok Option.none
  | _ => .error .attributeError

/-- Publish-time handling of the API extractor (`spider.py`): no `isinstance`
guard, so `.isdigit()` on a present non-string value raises
`AttributeError`; an absent value defaults to `""` whose `.isdigit()` is
false. -/
def pubTimeApi (cp : PyVal) : Except PyErr (Option Int) :=
  match cp with
  | .dict entries =>
    match (entries.find? fun kv => kv.1 == "publishTime".data).map (fun kv => kv.2) with
    | some (PyVal.str s) =>
      if s ≠ [] ∧ s.all Char.isDigit = true then .ok (some ((evalDigits s : Int)))
      else .ok Option.none
    | some _ => .error .attributeError
    | Option.none => .ok Option.none
  | _ => .error .attributeError

/-- One extracted record: the dict appended to `data_list` by the CLI
extractor.  `publishTime = none` is the "未知时间" sentinel. -/
structure RawItem where
  title : PyVal
  price : List Char
  priceCents : Int
  area : PyVal
  seller : PyVal
  link : List Char
  imageUrl : PyVal
  publishTime : Option Int

/-- One extracted record of the API extractor (no `price_cents` field). -/
structure RawItemApi where
  title : PyVal
  price : List Char
  area : PyVal
  seller : PyVal
  link : List Char
  imageUrl : PyVal
  publishTime : Option Int

/-- Processing of one search-result item by the CLI extractor, in source
order; the first exception aborts the item. -/
def processItemCli (item : PyVal) : Except PyErr RawItem :=
  match priceOf (mainDataOf item) with
  | .error e => .error e
  | .ok price =>
    match parse_price_to_cents price with
    | .error e => .error e
    | .ok priceCents =>
      match linkOf (safe_get item
          ["data".data, "item".data, "main".data, "targetUrl".data] (.str [])) with
      | .error e => .error e
      | .ok link =>
        match imageOf (safe_get (mainDataOf item) ["picUrl".data] (.str [])) with
        | .error e => .error e
        | .ok imageUrl =>
          match pubTimeCli (clickParamsOf item) with
          | .error e => .error e
          | .ok publishTime =>
            .ok { title := safe_get (mainDataOf item) ["title".data] (.str "未知标题".data),
                  price := price, priceCents := priceCents,
                  area := safe_get (mainDataOf item) ["area".data] (.str "地区未知".data),
                  seller := safe_get (mainDataOf item) ["userNickName".data]
                    (.str "匿名卖家".data),
                  link := link, imageUrl := imageUrl, publishTime := publishTime }

/-- Processing of one search-result item by the API extractor. -/
def processItemApi (item : PyVal) : Except PyErr RawItemApi :=
  match priceOf (mainDataOf item) with
  | .error e => .error e
  | .ok price =>
    match linkOf (safe_get item
        ["data".data, "item".data, "main".data, "targetUrl".data] (.str [])) with
    | .error e => .error e
    | .ok link =>
      match imageOf (safe_get (mainDataOf item) ["picUrl".data] (.str [])) with
      | .error e => .error e
      | .ok imageUrl =>
        match pubTimeApi (clickParamsOf item) with
        | .error e => .error e
        | .ok publishTime =>
          .ok { title := safe_get (mainDataOf item) ["title".data] (.str "未知标题".data),
                price := price,
                area := safe_get (mainDataOf item) ["area".data] (.str "地区未知".data),
                seller := safe_get (mainDataOf item) ["userNickName".data]
                  (.str "匿名卖家".data),
                link := link, imageUrl := imageUrl, publishTime := publishTime }

/-- The `for item in items` loop of `on_response`: records are appended one by
one; an exception aborts the loop (it is caught by the handler wrapping the
whole loop), keeping the records already appended and dropping the failing
item and everything after it. -/
def extractLoop {α : Type} (f : PyVal → Except PyErr α) : List PyVal → List α
  | [] => []
  | it :: rest =>
    match f it with
    | .ok r => r :: extractLoop f rest
    | .error _ => []

/-- `Except.isOk`. -/
def exOk {ε α : Type} (e : Except ε α) : Bool :=
  match e with
  | .ok _ => true
  | .error _ => false

/-- The value of an `Except`, if any. -/
def exVal {ε α : Type} (e : Except ε α) : Option α :=
  match e with
  | .ok a => some a
  | .error _ => Option.none

/-- `result_json.get("data", {}).get("resultList", [])` plus the iteration. -/
def resultListOf (body : PyVal) : Except PyErr (List PyVal) :=
  match pyDictGet body "data".data (.dict []) with
  | .error e => .error e
  | .ok d =>
    match pyDictGet d "resultList".data (.list []) with
    | .error e => .error e
    | .ok items => pyIter items

/-- The URL substring identifying the search endpoint. -/
def targetUrlPart : List Char :=
  "h5api.m.goofish.com/h5/mtop.taobao.idlemtopsearch.pc.search".data

/-- The whole CLI `on_response` handler for one response: the records appended
to `data_list`.  It is a total function — every exception inside the handler
is caught, so the session is never terminated by a response. -/
def onResponseCli (url : List Char) (body : PyVal) : List RawItem :=
  if strContains targetUrlPart url = true then
    match resultListOf body with
    | .ok items => extractLoop processItemCli items
    | .error _ => []
  else []

/-- The API `on_response` handler for one response. -/
def onResponseApi (url : List Char) (body : PyVal) : List RawItemApi :=
  if strContains targetUrlPart url = true then
    match resultListOf body with
    | .ok items => extractLoop processItemApi items
    | .error _ => []
  else []

/-- A response item whose 万-form price text fails `float()` and so raises
`ValueError` during processing. -/
def c2BadItem : PyVal :=
  .dict [("data".data,
    .dict [("item".data,
      .dict [("main".data,
        .dict [("exContent".data,
          .dict [("price".data, .list [.dict [("text".data, .str "x万".data)]])])])])])]

/-- The publish-time click-tracking parameter of an item's click-params is
absent or is not a string of (ASCII) digits — including present non-string
values, which are "not a string of digits". -/
def pubParamInvalid (cp : PyVal) : Prop :=
  match cp with
  | .dict entries =>
    match (entries.find? fun kv => kv.1 == "publishTime".data).map (fun kv => kv.2) with
    | some (PyVal.str s) => ¬(s ≠ [] ∧ s.all Char.isDigit = true)
    | some _ => True
    | Option.none => True
  | _ => False

/-- The publish-time parameter is absent or is a string that is not all
digits (present non-string values excluded). -/
def pubParamAbsentOrNonDigitStr (cp : PyVal) : Prop :=
  match cp with
  | .dict entries =>
    match (entries.find? fun kv => kv.1 == "publishTime".data).map (fun kv => kv.2) with
    | some (PyVal.str s) => ¬(s ≠ [] ∧ s.all Char.isDigit = true)
    | some _ => False
    | Option.none => True
  | _ => False

/-- An item whose publish-time parameter is the JSON number `5` — not a string
of digits. -/
def c6Item : PyVal :=
  .dict [("data".data,
    .dict [("item".data,
      .dict [("main".data,
        .dict [("clickParam".data,
          .dict [("args".data,
            .dict [("publishTime".data, .int 5)])])])])])]

/-! ## The pagination loop of `scrape_xianyu`

The loop state is the 1-indexed `current_page`; the environment is abstracted
to `next : Nat → Bool`, telling whether the `query_selector` for an enabled
next-page arrow finds a control while on a given page.  The loop body is
modelled as the trace of its observable steps.  Fuel-based recursion: the fuel
`maxPages + 1` used at top level covers every iteration, because each call
consumes one fuel and increments `current_page`, and the loop exits as soon as
`current_page > maxPages`. -/

/-- An observable step of the pagination loop. -/
inductive PageEv where
  | visit (p : Nat)
  | query (p : Nat)
  | click (p : Nat)
  deriving DecidableEq, Repr

/-- The CLI pagination loop (`cli_spider.py`): `while current_page <=
max_pages` with the next-page lookup guarded by `if current_page < max_pages`;
a missing control breaks out of the loop. -/
def cliLoopAux (next : Nat → Bool) (maxPages : Nat) : Nat → Nat → List PageEv
  | 0, _ => []
  | fuel + 1, cur =>
    if cur ≤ maxPages then
      if cur < maxPages then
        if next cur then
          .visit cur :: .query cur :: .click cur :: cliLoopAux next maxPages fuel (cur + 1)
        else [.visit cur, .query cur]
      else .visit cur :: cliLoopAux next maxPages fuel (cur + 1)
    else []

/-- The CLI pagination loop started at page 1. -/
def cliLoop (next : Nat → Bool) (maxPages : Nat) : List PageEv :=
  cliLoopAux next maxPages (maxPages + 1) 1

/-- The API pagination loop (`spider.py`): the same `while`, but the next-page
lookup is unguarded — it happens on every visited page, the last configured
one included, and a found control is clicked even there. -/
def apiLoopAux (next : Nat → Bool) (maxPages : Nat) : Nat → Nat → List PageEv
  | 0, _ => []
  | fuel + 1, cur =>
    if cur ≤ maxPages then
      if next cur then
        .visit cur :: .query cur :: .click cur :: apiLoopAux next maxPages fuel (cur + 1)
      else [.visit cur, .query cur]
    else []

/-- The API pagination loop started at page 1. -/
def apiLoop (next : Nat → Bool) (maxPages : Nat) : List PageEv :=
  apiLoopAux next maxPages (maxPages + 1) 1

/-- Pages visited (printed and waited on) in a trace. -/
def visits (t : List PageEv) : List Nat :=
  t.filterMap fun e => match e with | .visit p => some p | _ => Option.none

/-- Pages on which the next-page control was looked up. -/
def queries (t : List PageEv) : List Nat :=
  t.filterMap fun e => match e with | .query p => some p | _ => Option.none

/-- Pages on which the next-page control was clicked. -/
def clicks (t : List PageEv) : List Nat :=
  t.filterMap fun e => match e with | .click p => some p | _ => Option.none

/-- The page on which the CLI loop started at `cur` stops: the first page in
`[cur, maxPages)` whose next-control lookup fails, else `maxPages`. -/
def stopPageFrom (next : Nat → Bool) (maxPages cur : Nat) : Nat :=
  match (List.range' cur (maxPages - cur)).find? (fun p => !(next p)) with
  | some p => p
  | Option.none => maxPages

/-- The page on which the CLI loop stops. -/
def stopPage (next : Nat → Bool) (maxPages : Nat) : Nat := stopPageFrom next maxPages 1

/-! ## The ingestion sink (`save_to_db`) and the store -/

/-- A persisted row of the `xianyu_products` table (`models.py`).  The
`price_cents` entry that the CLI passes in `defaults` is silently dropped by
the ORM because the model declares no such field, so it is not stored. -/
structure StoredProduct where
  id : Nat
  linkHash : List Char
  title : PyVal
  price : List Char
  area : PyVal
  seller : PyVal
  link : List Char
  imageUrl : PyVal
  publishTime : Option Int

/-- The external store: rows in insertion order plus the next assigned id. -/
structure Store where
  rows : List StoredProduct
  nextId : Nat

/-- Lookup by `link_hash` (the `get` part of `get_or_create`). -/
def findRow (st : Store) (key : List Char) : Option StoredProduct :=
  st.rows.find? fun row => row.linkHash == key

/-- The row that a create inserts: the record's fields plus the key and a
store-assigned id. -/
def newRowOf (st : Store) (key : List Char) (item : RawItem) : StoredProduct :=
  { id := st.nextId, linkHash := key, title := item.title, price := item.price,
    area := item.area, seller := item.seller, link := item.link,
    imageUrl := item.imageUrl, publishTime := item.publishTime }

/-- The store after inserting a fresh row. -/
def insertRow (st : Store) (key : List Char) (item : RawItem) : Store :=
  { rows := st.rows ++ [newRowOf st key item], nextId := st.nextId + 1 }

/-- `XianyuProduct.get_or_create(link_hash=key, defaults={...})`: the existing
row untouched, or a fresh insert. -/
def get_or_create (st : Store) (key : List Char) (item : RawItem) :
    (StoredProduct × Bool) × Store :=
  match findRow st key with
  | some row => ((row, false), st)
  | Option.none => ((newRowOf st key item, true), insertRow st key item)

/-- `save_to_db(data_list)` of `cli_spider.py` (and `spider.py`): for each
record in input order, compute the dedup key `md5(get_link_unique_key(link))`
and `get_or_create`; count created rows and collect their ids.  The per-item
exception handler is unreachable in this model: the store is total and the
records are well-typed structures. -/
def save_to_db (md5 : List Char → List Char) : Store → List RawItem → (Nat × List Nat) × Store
  | st, [] => ((0, []), st)
  | st, item :: rest =>
    match get_or_create st (dedup_key md5 item.link) item with
    | ((row, created), st2) =>
      match save_to_db md5 st2 rest with
      | ((n, ids), st3) => if created then ((n + 1, row.id :: ids), st3) else ((n, ids), st3)

/-- Two concrete records with distinct canonical links. -/
def wItem1 : RawItem :=
  { title := .str "甲".data, price := "¥1".data, priceCents := 100, area := .str "沪".data,
    seller := .str "a".data, link := "https://www.goofish.com/item?id=1&x=1".data,
    imageUrl := .str [], publishTime := Option.none }

/-- A second record, same tracking suffix, different id parameter. -/
def wItem2 : RawItem :=
  { title := .str "乙".data, price := "¥2".data, priceCents := 200, area := .str "京".data,
    seller := .str "b".data, link := "https://www.goofish.com/item?id=2&x=1".data,
    imageUrl := .str [], publishTime := Option.none }

/-- The empty store. -/
def emptyStore : Store := { rows := [], nextId := 0 }

/-- The stored row for `wItem1`'s dedup key, as first written. -/
def wRow : StoredProduct :=
  { id := 0, linkHash := get_link_unique_key "https://www.goofish.com/item?id=1&x=1".data,
    title := .str "甲".data, price := "¥1".data, area := .str "沪".data,
    seller := .str "a".data, link := "https://www.goofish.com/item?id=1&x=1".data,
    imageUrl := .str [], publishTime := Option.none }

/-- A store already holding `wRow`. -/
def wStore : Store := { rows := [wRow], nextId := 1 }

/-! ## Theorems -/

lemma num_eq_self_mul_den (a : ℚ) : ((a.num : ℚ)) = a * a.den := by
  have ha : ((a.den : ℚ)) ≠ 0 := Nat.cast_ne_zero.mpr a.den_nz
  rw [← div_eq_iff ha]
  exact Rat.num_div_den a

lemma qMul_eq (a b : ℚ) : qMul a b = a * b := by
  have ha : ((a.den : ℚ)) ≠ 0 := Nat.cast_ne_zero.mpr a.den_nz
  have hb : ((b.den : ℚ)) ≠ 0 := Nat.cast_ne_zero.mpr b.den_nz
  unfold qMul
  rw [Rat.mkRat_eq_div]
  push_cast
  rw [div_eq_iff (by simp [ha, hb]), num_eq_self_mul_den a, num_eq_self_mul_den b]
  ring

lemma qAdd_eq (a b : ℚ) : qAdd a b = a + b := by
  have ha : ((a.den : ℚ)) ≠ 0 := Nat.cast_ne_zero.mpr a.den_nz
  have hb : ((b.den : ℚ)) ≠ 0 := Nat.cast_ne_zero.mpr b.den_nz
  unfold qAdd
  rw [Rat.mkRat_eq_div]
  push_cast
  rw [div_eq_iff (by simp [ha, hb]), num_eq_self_mul_den a, num_eq_self_mul_den b]
  ring

lemma qSub_eq (a b : ℚ) : qSub a b = a - b := by
  rw [qSub, qAdd_eq, sub_eq_add_neg]

lemma qDivNat_eq (a : ℚ) (n : Nat) : qDivNat a n = a / n := by
  have ha : ((a.den : ℚ)) ≠ 0 := Nat.cast_ne_zero.mpr a.den_nz
  unfold qDivNat
  rw [Rat.mkRat_eq_div]
  push_cast
  rcases eq_or_ne (n : ℚ) 0 with hn | hn
  · simp [hn]
  · rw [div_eq_div_iff (by simp [ha, hn]) hn, num_eq_self_mul_den a]
    ring

lemma pow10_eq (e : Int) : pow10 e = (10 : ℚ) ^ e := by
  unfold pow10
  split
  · rename_i h
    push_cast
    rw [← zpow_natCast (10 : ℚ) e.toNat, Int.toNat_of_nonneg h]
  · rename_i h
    rw [Rat.mkRat_eq_div]
    push_cast
    rw [div_eq_iff (by positivity), ← zpow_natCast (10 : ℚ) (-e).toNat,
      Int.toNat_of_nonneg (by omega : (0 : Int) ≤ -e), ← zpow_add₀ (by norm_num : (10 : ℚ) ≠ 0)]
    simp

/-! ## List helper lemmas -/

lemma takeWhile_all {α} (p : α → Bool) : ∀ (l : List α), (∀ c ∈ l, p c = true) → l.takeWhile p = l
  | [], _ => rfl
  | c :: t, h => by
    simp only [List.takeWhile_cons, h c (by simp), if_true]
    rw [takeWhile_all p t fun x hx => h x (by simp [hx])]

lemma dropWhile_all {α} (p : α → Bool) : ∀ (l : List α), (∀ c ∈ l, p c = true) → l.dropWhile p = []
  | [], _ => rfl
  | c :: t, h => by
    simp only [List.dropWhile_cons, h c (by simp), if_true]
    exact dropWhile_all p t fun x hx => h x (by simp [hx])

lemma filter_all {α} (p : α → Bool) : ∀ (l : List α), (∀ c ∈ l, p c = true) → l.filter p = l
  | [], _ => rfl
  | c :: t, h => by
    rw [List.filter_cons, if_pos (h c (by simp)), filter_all p t fun x hx => h x (by simp [hx])]

lemma filter_not_any {α} (p : α → Bool) : ∀ (l : List α), (∀ c ∈ l, p c = false) → l.filter p = []
  | [], _ => rfl
  | c :: t, h => by
    simp only [List.filter_cons, h c (by simp), Bool.false_eq_true, if_false]
    exact filter_not_any p t fun x hx => h x (by simp [hx])

lemma pyStrip_eq_self (l : List Char) (h : ∀ c ∈ l, c.isWhitespace = false) : pyStrip l = l := by
  unfold pyStrip
  have h1 : l.dropWhile Char.isWhitespace = l := by
    cases l with
    | nil => rfl
    | cons c t => simp [List.dropWhile_cons, h c (by simp)]
  rw [h1]
  have h2 : l.reverse.dropWhile Char.isWhitespace = l.reverse := by
    cases hr : l.reverse with
    | nil => rfl
    | cons c t =>
      have hc : c ∈ l := by rw [← List.mem_reverse, hr]; simp
      simp [List.dropWhile_cons, h c hc]
  rw [h2, List.reverse_reverse]

lemma strContains_subset (pat : List Char) :
    ∀ (s : List Char), strContains pat s = true → ∀ c ∈ pat, c ∈ s
  | [], h, c, hc => by
    unfold strContains at h
    rw [List.isEmpty_iff] at h
    subst h
    cases hc
  | b :: rest, h, c, hc => by
    unfold strContains at h
    rcases Bool.or_eq_true_iff.mp h with h1 | h1
    · exact (List.isPrefixOf_iff_prefix.mp h1).subset hc
    · exact List.mem_cons_of_mem b (strContains_subset pat rest h1 c hc)

/-! ## Link canonicalizer: theorems for claims C7 and C9 -/

lemma get_link_unique_key_eq_takeWhile (l : List Char) :
    get_link_unique_key l = l.takeWhile (· != '&') := by
  unfold get_link_unique_key splitOnceAmp
  by_cases h : '&' ∈ l
  · simp [h]
  · simp only [h, if_false]
    exact (takeWhile_all _ l fun c hc => by
      rw [bne_iff_ne]
      exact fun he => h (he ▸ hc)).symm

/-- C9: `canonicalize` (`get_link_unique_key`) is idempotent: applying it twice
gives the same result as applying it once. -/
theorem C9_canonicalize_idempotent (url : List Char) :
    get_link_unique_key (get_link_unique_key url) = get_link_unique_key url := by
  simp only [get_link_unique_key_eq_takeWhile]
  exact List.takeWhile_idem

lemma takeWhile_append_amp (p s : List Char) (hp : '&' ∉ p) :
    (p ++ '&' :: s).takeWhile (· != '&') = p := by
  induction p with
  | nil => simp [List.takeWhile_cons]
  | cons c t ih =>
    have hc : c ≠ '&' := fun h => hp (by simp [h])
    have ht : '&' ∉ t := fun h => hp (List.mem_cons_of_mem _ h)
    simp [List.cons_append, List.takeWhile_cons, bne_iff_ne, hc, ih ht]

/-- C7: two URLs agreeing on the part before their first `&` and differing only
after it canonicalize identically, hence get the same dedup key (the MD5 hash
of the canonical part) for any digest function. -/
theorem C7_dedup_key_ignores_tracking (md5 : List Char → List Char) (p s1 s2 : List Char)
    (hp : '&' ∉ p) :
    get_link_unique_key (p ++ '&' :: s1) = get_link_unique_key (p ++ '&' :: s2) ∧
    dedup_key md5 (p ++ '&' :: s1) = dedup_key md5 (p ++ '&' :: s2) := by
  have h1 : get_link_unique_key (p ++ '&' :: s1) = p := by
    rw [get_link_unique_key_eq_takeWhile]
    exact takeWhile_append_amp p s1 hp
  have h2 : get_link_unique_key (p ++ '&' :: s2) = p := by
    rw [get_link_unique_key_eq_takeWhile]
    exact takeWhile_append_amp p s2 hp
  refine ⟨h1.trans h2.symm, ?_⟩
  unfold dedup_key
  rw [h1.trans h2.symm]

/-- Witness for C7 at a concrete pair of URLs differing after the first `&`. -/
theorem C7_dedup_key_ignores_tracking_witness :
    get_link_unique_key ("https://a.cn/i?id=1".data ++ '&' :: "t=2".data) =
      get_link_unique_key ("https://a.cn/i?id=1".data ++ '&' :: "u=3".data) ∧
    dedup_key (fun s => s) ("https://a.cn/i?id=1".data ++ '&' :: "t=2".data) =
      dedup_key (fun s => s) ("https://a.cn/i?id=1".data ++ '&' :: "u=3".data) :=
  C7_dedup_key_ignores_tracking (fun s => s) "https://a.cn/i?id=1".data "t=2".data "u=3".data
    (by decide)

/-! ## Price normalizer: theorems for claims C1 and C10 -/

lemma centsOfValue_ok_range (v : PyFloat) (k : Int) (h : centsOfValue v = .ok k) :
    k = -1 ∨ 0 ≤ k := by
  unfold centsOfValue at h
  rcases hm : pyMulPos v 100 with q | b
  · rw [hm] at h
    simp only [Except.ok.injEq] at h
    have hle : (-1 : Int) ≤ max (-1) (roundHalfEven q) := le_max_left _ _
    rw [h] at hle
    omega
  · rw [hm] at h
    cases h
  · rw [hm] at h
    cases h

lemma parsePriceBody_ok_range (cleaned : List Char) (k : Int)
    (h : parsePriceBody cleaned = .ok k) : k = -1 ∨ 0 ≤ k := by
  simp only [parsePriceBody] at h
  split at h
  · split at h
    · cases h
      exact Or.inl rfl
    · split at h
      · exact centsOfValue_ok_range _ _ h
      · cases h
  · split at h
    · cases h
      exact Or.inl rfl
    · split at h
      · exact centsOfValue_ok_range _ _ h
      · cases h

/-- C1: whenever the price normalizer `parse_price_to_cents` returns a value,
that value is `-1` or non-negative; no other negative value is possible. -/
theorem C1_price_sentinel_or_nonneg (s : List Char) (v : Int)
    (h : parse_price_to_cents s = .ok v) : v = -1 ∨ 0 ≤ v := by
  simp only [parse_price_to_cents] at h
  split at h
  · cases h
    exact Or.inl rfl
  · split at h
    · cases h
      exact Or.inl rfl
    · split at h
      · cases h
        exact Or.inl rfl
      · rcases hb : parsePriceBody ((pyStrip s).filter keepPriceChar) with e | w
        · rw [hb] at h
          cases e <;> simp_all
        · rw [hb] at h
          cases h
          exact parsePriceBody_ok_range _ _ hb

/-- Witness for C1 at the concrete input `"¥1200"`. -/
theorem C1_price_sentinel_or_nonneg_witness :
    parse_price_to_cents "¥1200".data = .ok 120000 ∧
      ((120000 : Int) = -1 ∨ (0 : Int) ≤ 120000) :=
  ⟨by decide, C1_price_sentinel_or_nonneg "¥1200".data 120000 (by decide)⟩

/-- C10: the normalizer is not total — on `"1" + "0" * 400`, `float()` returns
an infinity, `round()` then raises `OverflowError`, which the
`except (ValueError, TypeError)` handler does not catch, so the exception
escapes instead of the documented `-1`. -/
theorem C10_parse_overflow_raises :
    parse_price_to_cents ('1' :: List.replicate 400 '0') = .error PyErr.overflowError := by
  decide

/-! ## Decimal digit strings -/

lemma digitChar_props (d : Nat) (hd : d < 10) :
    (Char.ofNat (48 + d)).isDigit = true ∧
    (Char.ofNat (48 + d)).isWhitespace = false ∧
    (Char.ofNat (48 + d)).toLower = Char.ofNat (48 + d) ∧
    digitVal (Char.ofNat (48 + d)) = d := by
  interval_cases d <;> exact ⟨rfl, rfl, rfl, rfl⟩

lemma digit_ne_of_not_digit {c ch : Char} (hc : c.isDigit = true) (hch : ch.isDigit = false) :
    c ≠ ch := by
  intro he
  rw [he, hch] at hc
  cases hc

lemma natDigitsFuel_mem : ∀ (fuel n : Nat), ∀ c ∈ natDigitsFuel fuel n,
    ∃ d, d < 10 ∧ c = Char.ofNat (48 + d)
  | 0, _ => by simp [natDigitsFuel]
  | _ + 1, 0 => by simp [natDigitsFuel]
  | fuel + 1, n + 1 => by
    intro c hc
    rw [show natDigitsFuel (fuel + 1) (n + 1) =
      natDigitsFuel fuel ((n + 1) / 10) ++ [Char.ofNat (48 + (n + 1) % 10)] from rfl] at hc
    rcases List.mem_append.mp hc with h | h
    · exact natDigitsFuel_mem fuel ((n + 1) / 10) c h
    · rcases List.mem_singleton.mp h with rfl
      exact ⟨(n + 1) % 10, Nat.mod_lt _ (by norm_num), rfl⟩

lemma natToChars_mem (n : Nat) : ∀ c ∈ natToChars n, ∃ d, d < 10 ∧ c = Char.ofNat (48 + d) := by
  unfold natToChars
  split
  · intro c hc
    rcases List.mem_singleton.mp hc with rfl
    exact ⟨0, by norm_num, by decide⟩
  · exact natDigitsFuel_mem n n

lemma natToChars_ne_nil (n : Nat) : natToChars n ≠ [] := by
  unfold natToChars
  split
  · simp
  · rename_i h
    cases n with
    | zero => exact absurd rfl h
    | succ m =>
      rw [show natDigitsFuel (m + 1) (m + 1) =
        natDigitsFuel m ((m + 1) / 10) ++ [Char.ofNat (48 + (m + 1) % 10)] from rfl]
      simp

lemma evalDigits_from (l : List Char) : ∀ (a : Nat),
    l.foldl (fun a c => 10 * a + digitVal c) a = a * 10 ^ l.length + evalDigits l := by
  induction l with
  | nil => intro a; simp [evalDigits]
  | cons c t ih =>
    intro a
    have h1 : evalDigits (c :: t) = t.foldl (fun a c => 10 * a + digitVal c) (digitVal c) := by
      simp [evalDigits]
    rw [List.foldl_cons, ih (10 * a + digitVal c), h1, ih (digitVal c), List.length_cons]
    ring

lemma evalDigits_append (l1 l2 : List Char) :
    evalDigits (l1 ++ l2) = evalDigits l1 * 10 ^ l2.length + evalDigits l2 := by
  unfold evalDigits
  rw [List.foldl_append]
  exact evalDigits_from l2 _

lemma evalDigits_natDigitsFuel : ∀ (fuel n : Nat), n ≤ fuel →
    evalDigits (natDigitsFuel fuel n) = n
  | fuel, 0 => by cases fuel <;> simp [natDigitsFuel, evalDigits]
  | 0, n + 1 => by omega
  | fuel + 1, n + 1 => by
    intro h
    rw [show natDigitsFuel (fuel + 1) (n + 1) =
      natDigitsFuel fuel ((n + 1) / 10) ++ [Char.ofNat (48 + (n + 1) % 10)] from rfl]
    rw [evalDigits_append]
    have hdiv : (n + 1) / 10 ≤ fuel := by
      have := Nat.div_lt_self (Nat.succ_pos n) (by norm_num : 1 < 10)
      omega
    rw [evalDigits_natDigitsFuel fuel ((n + 1) / 10) hdiv]
    have hd : digitVal (Char.ofNat (48 + (n + 1) % 10)) = (n + 1) % 10 :=
      (digitChar_props _ (Nat.mod_lt _ (by norm_num))).2.2.2
    have h1 : evalDigits [Char.ofNat (48 + (n + 1) % 10)] = (n + 1) % 10 := by
      simp [evalDigits, hd]
    rw [h1]
    simp only [List.length_singleton, pow_one]
    omega

lemma evalDigits_natToChars (n : Nat) : evalDigits (natToChars n) = n := by
  unfold natToChars
  split
  · rename_i h
    rw [h]
    decide
  · exact evalDigits_natDigitsFuel n n le_rfl

/-! ## `float()` and `parse_price_to_cents` on plain digit strings -/

lemma floatMax_pos : 0 < floatMax := by
  unfold floatMax
  have h : (2 : Nat) ^ 970 < 2 ^ 1024 := Nat.pow_lt_pow_right (by norm_num) (by norm_num)
  exact_mod_cast Nat.sub_pos_of_lt h

lemma million_lt_floatMax : (1000000 : ℚ) < floatMax := by decide

lemma mkPyFloat_of_nonneg_lt (q : ℚ) (h0 : 0 ≤ q) (h1 : q < floatMax) :
    mkPyFloat q = .finite q := by
  unfold mkPyFloat
  rw [if_neg (not_le.mpr h1), if_neg (by nlinarith [floatMax_pos])]

lemma ratFloor_intCast (k : Int) : Rat.floor ((k : ℚ)) = k := by
  rw [Rat.floor_def']
  simp

lemma mkRat_one_two_eq : (mkRat 1 2 : ℚ) = 1 / 2 := by
  rw [Rat.mkRat_eq_div]
  norm_num

lemma roundHalfEven_intCast (k : Int) : roundHalfEven ((k : ℚ)) = k := by
  simp only [roundHalfEven, ratFloor_intCast, qSub_eq, sub_self, mkRat_one_two_eq]
  norm_num

lemma splitSign_no_sign (s : List Char) (h : ∀ c ∈ s, c ≠ '+' ∧ c ≠ '-') :
    splitSign s = (false, s) := by
  unfold splitSign
  split
  · rename_i r
    exact absurd rfl (h '+' (by simp)).1
  · rename_i r
    exact absurd rfl (h '-' (by simp)).2
  · rfl

lemma splitExp_no_exp (s : List Char) (h : ∀ c ∈ s, (c != 'e' && c != 'E') = true) :
    splitExp s = (s, Option.none) := by
  unfold splitExp
  rw [dropWhile_all _ s h]

lemma parseMantissa_digits (ds : List Char) (hne : ds ≠ [])
    (hdig : ∀ c ∈ ds, c.isDigit = true) :
    parseMantissa ds = some ((evalDigits ds : ℚ)) := by
  have hdot : ∀ c ∈ ds, (c != '.') = true := fun c hc => by
    rw [bne_iff_ne]
    exact digit_ne_of_not_digit (hdig c hc) (by decide)
  have hall : ds.all (fun c => c.isDigit || c == '.') = true := by
    rw [List.all_eq_true]
    intro c hc
    simp [hdig c hc]
  have hcount : ds.count '.' = 0 := by
    apply List.count_eq_zero_of_not_mem
    intro hmem
    have := hdig '.' hmem
    exact absurd this (by decide)
  have hany : ds.any Char.isDigit = true := by
    rw [List.any_eq_true]
    cases ds with
    | nil => exact absurd rfl hne
    | cons c t => exact ⟨c, by simp, hdig c (by simp)⟩
  unfold parseMantissa
  rw [if_pos ⟨hall, by omega, hany⟩]
  rw [takeWhile_all _ ds hdot, dropWhile_all _ ds hdot]
  have hz : qAdd ((evalDigits ds : ℚ)) (mkRat (evalDigits (List.drop 1 ([] : List Char)))
      (10 ^ (List.drop 1 ([] : List Char)).length)) = ((evalDigits ds : ℚ)) := by
    rw [qAdd_eq]
    norm_num [evalDigits, Rat.mkRat_eq_div]
  rw [hz]

lemma pyFloatParse_digits (ds : List Char) (hne : ds ≠ [])
    (hdig : ∀ c ∈ ds, c.isDigit = true)
    (hws : ∀ c ∈ ds, c.isWhitespace = false)
    (hlow : ∀ c ∈ ds, c.toLower = c)
    (hlt : ((evalDigits ds : ℚ)) < floatMax) :
    pyFloatParse ds = some (.finite ((evalDigits ds : ℚ))) := by
  have hstrip : pyStrip ds = ds := pyStrip_eq_self ds hws
  have hsign : splitSign ds = (false, ds) := splitSign_no_sign ds fun c hc =>
    ⟨digit_ne_of_not_digit (hdig c hc) (by decide),
     digit_ne_of_not_digit (hdig c hc) (by decide)⟩
  have hmap : ds.map Char.toLower = ds := by
    rw [List.map_congr_left hlow]
    simp
  have hhead : ∀ (t : List Char), ds = t → t ≠ [] → (t.headD ' ').isDigit = true := by
    intro t ht _
    subst ht
    cases ds with
    | nil => exact absurd rfl hne
    | cons c r => exact hdig c (by simp)
  have hne_inf : ¬(ds = "inf".data ∨ ds = "infinity".data) := by
    rintro (h | h) <;>
    · cases ds with
      | nil => exact hne rfl
      | cons c r =>
        have hc := hdig c (by simp)
        have : c = 'i' := by
          have := congrArg (fun l => l.headD ' ') h
          simpa using this
        rw [this] at hc
        exact absurd hc (by decide)
  have hne_nan : ¬(ds = "nan".data) := by
    intro h
    cases ds with
    | nil => exact hne rfl
    | cons c r =>
      have hc := hdig c (by simp)
      have : c = 'n' := by
        have := congrArg (fun l => l.headD ' ') h
        simpa using this
      rw [this] at hc
      exact absurd hc (by decide)
  have hsplit : splitExp ds = (ds, Option.none) := splitExp_no_exp ds fun c hc => by
    have h1 : c ≠ 'e' := digit_ne_of_not_digit (hdig c hc) (by decide)
    have h2 : c ≠ 'E' := digit_ne_of_not_digit (hdig c hc) (by decide)
    simp [h1, h2]
  simp only [pyFloatParse, hstrip, hsign, hmap]
  rw [if_neg hne_inf, if_neg hne_nan, hsplit]
  rw [parseMantissa_digits ds hne hdig]
  have h0 : (0 : ℚ) ≤ ((evalDigits ds : ℚ)) := by positivity
  simp [mkPyFloat_of_nonneg_lt _ h0 hlt]

/-- Five anomaly keywords each contain a character that is neither `¥` nor a
digit, so none of them occurs in `'¥' :: digits`. -/
lemma no_anomaly_in_yen_digits (s : List Char) (hs : ∀ c ∈ s, c = '¥' ∨ c.isDigit = true) :
    anomalyKeywords.any (fun k => strContains k s) = false := by
  rw [List.any_eq_false]
  intro k hk
  have hwit : ∃ c, c ∈ k ∧ c ≠ '¥' ∧ c.isDigit = false := by
    fin_cases hk
    · exact ⟨'异', by decide, by decide, by decide⟩
    · exact ⟨'暂', by decide, by decide, by decide⟩
    · exact ⟨'待', by decide, by decide, by decide⟩
    · exact ⟨'免', by decide, by decide, by decide⟩
    · exact ⟨'面', by decide, by decide, by decide⟩
  rcases hwit with ⟨c, hck, hcy, hcd⟩
  intro hcon
  have hmem := strContains_subset k s hcon c hck
  rcases hs c hmem with h | h
  · exact hcy h
  · rw [h] at hcd
    cases hcd

lemma parse_price_yen_digits (m : Nat) (hm : m < 10000) :
    parse_price_to_cents ('¥' :: natToChars m) = .ok ((100 * m : Int)) := by
  have hmem := natToChars_mem m
  have hdig : ∀ c ∈ natToChars m, c.isDigit = true := fun c hc => by
    rcases hmem c hc with ⟨d, hd, rfl⟩
    exact (digitChar_props d hd).1
  have hws : ∀ c ∈ natToChars m, c.isWhitespace = false := fun c hc => by
    rcases hmem c hc with ⟨d, hd, rfl⟩
    exact (digitChar_props d hd).2.1
  have hlow : ∀ c ∈ natToChars m, c.toLower = c := fun c hc => by
    rcases hmem c hc with ⟨d, hd, rfl⟩
    exact (digitChar_props d hd).2.2.1
  have hstrip : pyStrip ('¥' :: natToChars m) = '¥' :: natToChars m := by
    apply pyStrip_eq_self
    intro c hc
    rcases List.mem_cons.mp hc with rfl | hc
    · decide
    · exact hws c hc
  have hanom : anomalyKeywords.any (fun k => strContains k ('¥' :: natToChars m)) = false := by
    apply no_anomaly_in_yen_digits
    intro c hc
    rcases List.mem_cons.mp hc with rfl | hc
    · exact Or.inl rfl
    · exact Or.inr (hdig c hc)
  have hclean : ('¥' :: natToChars m).filter keepPriceChar = natToChars m := by
    rw [List.filter_cons, if_neg (by decide)]
    exact filter_all _ _ fun c hc => by simp [keepPriceChar, hdig c hc]
  have hnwan : ¬('万' ∈ natToChars m) := by
    intro hmem2
    rcases hmem '万' hmem2 with ⟨d, hd, he⟩
    have := (digitChar_props d hd).1
    rw [← he] at this
    exact absurd this (by decide)
  have hcomma : (natToChars m).filter (· != ',') = natToChars m :=
    filter_all _ _ fun c hc => by
      rw [bne_iff_ne]
      exact digit_ne_of_not_digit (hdig c hc) (by decide)
  have hlt : ((evalDigits (natToChars m) : ℚ)) < floatMax := by
    rw [evalDigits_natToChars]
    calc ((m : ℚ)) < ((10000 : ℚ)) := by exact_mod_cast hm
    _ < 1000000 := by norm_num
    _ < floatMax := million_lt_floatMax
  have hfp := pyFloatParse_digits (natToChars m) (natToChars_ne_nil m) hdig hws hlow hlt
  have hbound : (((100 * m : Int)) : ℚ) < floatMax := by
    have h1 : ((100 * m : Int)) < 1000000 := by omega
    calc (((100 * m : Int)) : ℚ) < 1000000 := by exact_mod_cast h1
    _ < floatMax := million_lt_floatMax
  have hcents : centsOfValue (.finite ((evalDigits (natToChars m) : ℚ))) =
      .ok ((100 * m : Int)) := by
    have hq : qMul ((evalDigits (natToChars m) : ℚ)) 100 = (((100 * m : Int)) : ℚ) := by
      rw [qMul_eq, evalDigits_natToChars]
      push_cast
      ring
    simp only [centsOfValue, pyMulPos, hq, mkPyFloat_of_nonneg_lt _ (by positivity) hbound]
    rw [roundHalfEven_intCast, max_eq_right (by omega : (-1 : Int) ≤ 100 * (m : Int))]
  have hbody : parsePriceBody (natToChars m) = .ok ((100 * m : Int)) := by
    simp only [parsePriceBody]
    rw [if_neg hnwan, hcomma, if_neg (natToChars_ne_nil m)]
    simp only [hfp]
    exact hcents
  simp only [parse_price_to_cents, hstrip, hanom]
  rw [if_neg (by simp), if_neg (by simp), hclean, if_neg (natToChars_ne_nil m), hbody]

/-! ## C8: the display round trip -/

lemma display_whole_yuan (m : Nat) (hm : m < 10000) :
    format_cents_to_display ((100 * m : Int)) = '¥' :: natToChars m := by
  unfold format_cents_to_display
  rw [if_neg (by omega : ¬((100 * m : Int) < 0))]
  have hy : qDivNat ((((100 * m : Int)) : ℚ)) 100 = ((m : ℚ)) := by
    rw [qDivNat_eq]
    push_cast
    field_simp
  rw [hy, if_neg (by exact_mod_cast not_le.mpr hm : ¬((m : ℚ) ≥ 10000))]
  have hfin : mkPyFloat ((m : ℚ)) = .finite ((m : ℚ)) := by
    apply mkPyFloat_of_nonneg_lt _ (by positivity)
    calc ((m : ℚ)) < 10000 := by exact_mod_cast hm
    _ < 1000000 := by norm_num
    _ < floatMax := million_lt_floatMax
  rw [hfin]
  show '¥' :: intToChars (roundHalfEven ((m : ℚ))) = '¥' :: natToChars m
  have : roundHalfEven ((m : ℚ)) = ((m : Int)) := by
    have hc : ((m : ℚ)) = (((m : Int)) : ℚ) := by push_cast; ring
    rw [hc, roundHalfEven_intCast]
  rw [this]
  unfold intToChars
  rw [if_neg (by omega : ¬((m : Int) < 0))]
  congr 1

/-- C8 (corrected): for a string normalizing to `-1` or to a whole-yuan amount
below ¥10000 (a multiple of 100 minor units under 1,000,000), re-parsing the
display string returns exactly the same minor-units value.  (In general the
display rounds, so the round trip is not exact — see the counterexample.) -/
theorem C8_round_trip_amended (s : List Char) (v : Int)
    (_hs : parse_price_to_cents s = .ok v)
    (hv : v = -1 ∨ ((100 : Int) ∣ v ∧ 0 ≤ v ∧ v < 1000000)) :
    parse_price_to_cents (format_cents_to_display v) = .ok v := by
  rcases hv with rfl | ⟨⟨k, rfl⟩, h0, h1⟩
  · decide
  · have hk0 : 0 ≤ k := by omega
    have hk1 : k < 10000 := by omega
    have hmk : (100 * k : Int) = ((100 * k.toNat : Int)) := by omega
    rw [hmk, display_whole_yuan k.toNat (by omega), parse_price_yen_digits k.toNat (by omega)]

/-- Witness for the amended C8 at the concrete string `"¥1200"`. -/
theorem C8_round_trip_amended_witness :
    parse_price_to_cents (format_cents_to_display 120000) = .ok 120000 :=
  C8_round_trip_amended "¥1200".data 120000 (by decide)
    (Or.inr ⟨⟨1200, by norm_num⟩, by norm_num, by norm_num⟩)

/-- Counterexample to C8 as stated: `"¥1.5"` normalizes to 150 minor units, the
display function rounds it to `"¥2"`, and re-parsing gives 200 ≠ 150, so
`normalize(display(normalize(text)))` is not equivalent to `normalize(text)`. -/
theorem C8_round_trip_counterexample :
    parse_price_to_cents "¥1.5".data = .ok 150 ∧
    format_cents_to_display 150 = "¥2".data ∧
    parse_price_to_cents (format_cents_to_display 150) = .ok 200 ∧
    (200 : Int) ≠ 150 := by
  exact ⟨by decide, by decide, by decide, by decide⟩

/-! ## C2: per-item failure behaviour of the extractor -/

lemma extractLoop_eq_takeWhile {α : Type} (f : PyVal → Except PyErr α) :
    ∀ items : List PyVal,
      extractLoop f items =
        ((items.takeWhile fun it => exOk (f it)).filterMap fun it => exVal (f it))
  | [] => rfl
  | it :: rest => by
    rcases hf : f it with e | r <;>
      simp [extractLoop, hf, List.takeWhile_cons, exOk, exVal,
        extractLoop_eq_takeWhile f rest]

/-- C2 (corrected): an exception while processing an item is caught by the
handler around the whole loop, so the failing item and all later items of
that response are dropped, while the records appended before the failure are
kept; the handler itself always returns (the session survives).  This holds
for both extractor variants. -/
theorem C2_item_failure_amended :
    (∀ items : List PyVal,
      extractLoop processItemCli items =
        ((items.takeWhile fun it => exOk (processItemCli it)).filterMap
          fun it => exVal (processItemCli it))) ∧
    (∀ items : List PyVal,
      extractLoop processItemApi items =
        ((items.takeWhile fun it => exOk (processItemApi it)).filterMap
          fun it => exVal (processItemApi it))) :=
  ⟨extractLoop_eq_takeWhile processItemCli, extractLoop_eq_takeWhile processItemApi⟩

/-- Counterexample to C2 as stated: in a response holding a failing item
followed by a perfectly processable one, the second item is dropped too — the
loop does not continue with the remaining items. -/
theorem C2_item_failure_counterexample :
    extractLoop processItemCli [c2BadItem, PyVal.dict []] = [] ∧
    exOk (processItemCli (PyVal.dict [])) = true ∧
    extractLoop processItemApi [c2BadItem, PyVal.dict []] = [] ∧
    exOk (processItemApi (PyVal.dict [])) = true :=
  ⟨rfl, rfl, rfl, rfl⟩

lemma pubTimeCli_invalid (cp : PyVal) (h : pubParamInvalid cp) :
    pubTimeCli cp = .ok Option.none := by
  cases cp with
  | dict entries =>
    rcases hf : (entries.find? fun kv => kv.1 == "publishTime".data).map (fun kv => kv.2)
      with _ | val
    · simp only [pubTimeCli, hf]
    · cases val with
      | str s =>
        simp only [pubParamInvalid, hf] at h
        simp only [pubTimeCli, hf, if_neg h]
      | pynone => simp only [pubTimeCli, hf]
      | int n => simp only [pubTimeCli, hf]
      | list l => simp only [pubTimeCli, hf]
      | dict d => simp only [pubTimeCli, hf]
  | pynone => exact h.elim
  | str s => exact h.elim
  | int n => exact h.elim
  | list l => exact h.elim

lemma pubTimeApi_absent_or_nondigit (cp : PyVal) (h : pubParamAbsentOrNonDigitStr cp) :
    pubTimeApi cp = .ok Option.none := by
  cases cp with
  | dict entries =>
    rcases hf : (entries.find? fun kv => kv.1 == "publishTime".data).map (fun kv => kv.2)
      with _ | val
    · simp only [pubTimeApi, hf]
    · cases val with
      | str s =>
        simp only [pubParamAbsentOrNonDigitStr, hf] at h
        simp only [pubTimeApi, hf, if_neg h]
      | pynone => simp only [pubParamAbsentOrNonDigitStr, hf] at h
      | int n => simp only [pubParamAbsentOrNonDigitStr, hf] at h
      | list l => simp only [pubParamAbsentOrNonDigitStr, hf] at h
      | dict d => simp only [pubParamAbsentOrNonDigitStr, hf] at h
  | pynone => exact h.elim
  | str s => exact h.elim
  | int n => exact h.elim
  | list l => exact h.elim

/-- In the CLI extractor, the `publishTime` field of a successfully extracted
record is exactly what `pubTimeCli` produced for the item's click-params. -/
lemma processItemCli_publishTime (item : PyVal) (r : RawItem)
    (h : processItemCli item = .ok r) : pubTimeCli (clickParamsOf item) = .ok r.publishTime := by
  unfold processItemCli at h
  rcases h1 : priceOf (mainDataOf item) with e1 | price
  · simp [h1] at h
  simp only [h1] at h
  rcases h2 : parse_price_to_cents price with e2 | cents
  · simp [h2] at h
  simp only [h2] at h
  rcases h3 : linkOf (safe_get item
      ["data".data, "item".data, "main".data, "targetUrl".data] (.str [])) with e3 | link
  · simp [h3] at h
  simp only [h3] at h
  rcases h4 : imageOf (safe_get (mainDataOf item) ["picUrl".data] (.str [])) with e4 | img
  · simp [h4] at h
  simp only [h4] at h
  rcases h5 : pubTimeCli (clickParamsOf item) with e5 | pub
  · simp [h5] at h
  simp only [h5, Except.ok.injEq] at h
  subst h
  rfl

/-- C6 (corrected): in the CLI extractor an absent or non-digit-string (or any
non-string) publish-time parameter yields the "unknown time" sentinel with no
error, and a successfully extracted item then carries `publishTime = none`;
in the API extractor this holds for absent or non-digit-string values, while
a present non-string value raises `AttributeError` (see the
counterexample). -/
theorem C6_publish_time_amended :
    (∀ item : PyVal, pubParamInvalid (clickParamsOf item) →
      pubTimeCli (clickParamsOf item) = .ok Option.none) ∧
    (∀ (item : PyVal) (r : RawItem), pubParamInvalid (clickParamsOf item) →
      processItemCli item = .ok r → r.publishTime = Option.none) ∧
    (∀ cp : PyVal, pubParamAbsentOrNonDigitStr cp → pubTimeApi cp = .ok Option.none) := by
  refine ⟨fun item h => pubTimeCli_invalid _ h, fun item r h hok => ?_,
    fun cp h => pubTimeApi_absent_or_nondigit cp h⟩
  have h1 := processItemCli_publishTime item r hok
  have h2 := pubTimeCli_invalid _ h
  rw [h1] at h2
  exact Except.ok.inj h2

/-- Witness for the amended C6: an item with no click-params at all extracts
with the unknown-time sentinel. -/
theorem C6_publish_time_amended_witness :
    pubTimeCli (clickParamsOf (PyVal.dict [])) = .ok Option.none :=
  C6_publish_time_amended.1 (PyVal.dict []) trivial

/-- Counterexample to C6 as stated: in the API extractor (`spider.py`) a
present non-string publish-time value — which is "not a string of digits" —
raises `AttributeError` on `.isdigit()`, so the item is dropped instead of
being extracted with publish time unset. -/
theorem C6_publish_time_counterexample :
    pubParamInvalid (clickParamsOf c6Item) ∧
    processItemApi c6Item = .error PyErr.attributeError :=
  ⟨trivial, rfl⟩

lemma stopPageFrom_bounds (next : Nat → Bool) (mp cur : Nat) (h : cur ≤ mp) :
    cur ≤ stopPageFrom next mp cur ∧ stopPageFrom next mp cur ≤ mp := by
  unfold stopPageFrom
  rcases hf : (List.range' cur (mp - cur)).find? (fun p => !(next p)) with _ | p
  · exact ⟨h, le_rfl⟩
  · have hm := List.mem_of_find?_eq_some hf
    rw [List.mem_range'_1] at hm
    exact ⟨hm.1, show p ≤ mp from by omega⟩

lemma stopPageFrom_step (next : Nat → Bool) (mp cur : Nat) (h : cur < mp) :
    stopPageFrom next mp cur =
      if next cur then stopPageFrom next mp (cur + 1) else cur := by
  unfold stopPageFrom
  rw [show mp - cur = (mp - (cur + 1)) + 1 from by omega, List.range'_succ]
  by_cases hn : next cur
  · simp [List.find?_cons, hn]
  · simp [List.find?_cons, hn]

lemma cliLoopAux_gt (next : Nat → Bool) (mp : Nat) :
    ∀ fuel cur, mp < cur → cliLoopAux next mp fuel cur = [] := by
  intro fuel cur h
  cases fuel with
  | zero => rfl
  | succ f => simp [cliLoopAux, if_neg (by omega : ¬(cur ≤ mp))]

lemma visits_cliLoopAux (next : Nat → Bool) (mp : Nat) :
    ∀ fuel cur, cur ≤ mp → mp + 1 ≤ fuel + cur →
      visits (cliLoopAux next mp fuel cur) =
        List.range' cur (stopPageFrom next mp cur + 1 - cur) := by
  intro fuel
  induction fuel with
  | zero => intro cur h1 h2; omega
  | succ f ih =>
    intro cur h1 h2
    by_cases hlt : cur < mp
    · by_cases hn : next cur
      · have hb := stopPageFrom_bounds next mp (cur + 1) (by omega)
        have hstep : stopPageFrom next mp cur = stopPageFrom next mp (cur + 1) := by
          rw [stopPageFrom_step next mp cur hlt, if_pos hn]
        rw [hstep, show stopPageFrom next mp (cur + 1) + 1 - cur =
          (stopPageFrom next mp (cur + 1) + 1 - (cur + 1)) + 1 from by omega,
          List.range'_succ]
        simp only [cliLoopAux, if_pos h1, if_pos hlt, if_pos hn]
        simp only [visits, List.filterMap_cons]
        have hrec := ih (cur + 1) (by omega) (by omega)
        simp only [visits] at hrec
        rw [hrec]
      · have hstep : stopPageFrom next mp cur = cur := by
          rw [stopPageFrom_step next mp cur hlt, if_neg hn]
        rw [hstep, show cur + 1 - cur = 1 from by omega]
        simp only [cliLoopAux, if_pos h1, if_pos hlt, if_neg hn]
        simp only [visits, List.filterMap_cons, List.filterMap_nil]
        rfl
    · have hcur : cur = mp := by omega
      rw [hcur]
      have hstop : stopPageFrom next mp mp = mp := by
        unfold stopPageFrom
        simp [Nat.sub_self]
      rw [hstop, show mp + 1 - mp = 1 from by omega]
      simp only [cliLoopAux, if_pos (le_refl mp), if_neg (lt_irrefl mp)]
      rw [cliLoopAux_gt next mp f (mp + 1) (by omega)]
      simp only [visits, List.filterMap_cons, List.filterMap_nil]
      rfl

lemma queries_cliLoopAux (next : Nat → Bool) (mp : Nat) :
    ∀ fuel cur,
      queries (cliLoopAux next mp fuel cur) =
        (visits (cliLoopAux next mp fuel cur)).filter (fun p => decide (p < mp)) := by
  intro fuel
  induction fuel with
  | zero => intro cur; rfl
  | succ f ih =>
    intro cur
    have hrec := ih (cur + 1)
    simp only [queries, visits] at hrec
    by_cases h1 : cur ≤ mp
    · by_cases hlt : cur < mp
      · by_cases hn : next cur
        · simp only [cliLoopAux, if_pos h1, if_pos hlt, if_pos hn]
          simp only [queries, visits, List.filterMap_cons]
          simp [List.filter_cons, hlt, hrec]
        · simp only [cliLoopAux, if_pos h1, if_pos hlt, if_neg hn]
          simp only [queries, visits, List.filterMap_cons, List.filterMap_nil]
          simp [List.filter_cons, hlt]
      · simp only [cliLoopAux, if_pos h1, if_neg hlt]
        simp only [queries, visits, List.filterMap_cons]
        simp [List.filter_cons, hlt, hrec]
    · simp only [cliLoopAux, if_neg h1]
      rfl

lemma clicks_cliLoopAux (next : Nat → Bool) (mp : Nat) :
    ∀ fuel cur,
      clicks (cliLoopAux next mp fuel cur) =
        (queries (cliLoopAux next mp fuel cur)).filter next := by
  intro fuel
  induction fuel with
  | zero => intro cur; rfl
  | succ f ih =>
    intro cur
    have hrec := ih (cur + 1)
    simp only [clicks, queries] at hrec
    by_cases h1 : cur ≤ mp
    · by_cases hlt : cur < mp
      · by_cases hn : next cur
        · simp only [cliLoopAux, if_pos h1, if_pos hlt, if_pos hn]
          simp only [clicks, queries, List.filterMap_cons]
          simp [List.filter_cons, hn, hrec]
        · simp only [cliLoopAux, if_pos h1, if_pos hlt, if_neg hn]
          simp only [clicks, queries, List.filterMap_cons, List.filterMap_nil]
          simp [List.filter_cons, hn]
      · simp only [cliLoopAux, if_pos h1, if_neg hlt]
        simp only [clicks, queries, List.filterMap_cons]
        simp [hrec]
    · simp only [cliLoopAux, if_neg h1]
      rfl

lemma queries_apiLoopAux (next : Nat → Bool) (mp : Nat) :
    ∀ fuel cur,
      queries (apiLoopAux next mp fuel cur) = visits (apiLoopAux next mp fuel cur) := by
  intro fuel
  induction fuel with
  | zero => intro cur; rfl
  | succ f ih =>
    intro cur
    have hrec := ih (cur + 1)
    simp only [queries, visits] at hrec
    by_cases h1 : cur ≤ mp
    · by_cases hn : next cur
      · simp only [apiLoopAux, if_pos h1, if_pos hn]
        simp only [queries, visits, List.filterMap_cons]
        simp [hrec]
      · simp only [apiLoopAux, if_pos h1, if_neg hn]
        simp [queries, visits, List.filterMap_cons]
    · simp only [apiLoopAux, if_neg h1]
      rfl

lemma clicks_apiLoopAux (next : Nat → Bool) (mp : Nat) :
    ∀ fuel cur,
      clicks (apiLoopAux next mp fuel cur) =
        (queries (apiLoopAux next mp fuel cur)).filter next := by
  intro fuel
  induction fuel with
  | zero => intro cur; rfl
  | succ f ih =>
    intro cur
    have hrec := ih (cur + 1)
    simp only [clicks, queries] at hrec
    by_cases h1 : cur ≤ mp
    · by_cases hn : next cur
      · simp only [apiLoopAux, if_pos h1, if_pos hn]
        simp only [clicks, queries, List.filterMap_cons]
        simp [List.filter_cons, hn, hrec]
      · simp only [apiLoopAux, if_pos h1, if_neg hn]
        simp only [clicks, queries, List.filterMap_cons, List.filterMap_nil]
        simp [List.filter_cons, hn]
    · simp only [apiLoopAux, if_neg h1]
      rfl

/-- C3 (corrected): the CLI loop (`cli_spider.py`) behaves exactly as claimed:
it visits pages `1..stopPage` (an initial segment of `1..maxPages`), looks up
the next-page control exactly on the visited pages other than the last
configured one, clicks exactly where the lookup succeeds, stops early
precisely on a page whose control is absent, and runs to `maxPages` when all
lookups succeed — all without error (the loop is a total function).  The API
loop (`spider.py`), however, looks up the control on every visited page
including the last configured one, and clicks it there too when present. -/
theorem C3_page_loop_amended (next : Nat → Bool) (mp : Nat) (h1 : 1 ≤ mp) :
    visits (cliLoop next mp) = List.range' 1 (stopPage next mp) ∧
    queries (cliLoop next mp) = (visits (cliLoop next mp)).filter (fun p => decide (p < mp)) ∧
    clicks (cliLoop next mp) = (queries (cliLoop next mp)).filter next ∧
    1 ≤ stopPage next mp ∧ stopPage next mp ≤ mp ∧
    (stopPage next mp < mp → next (stopPage next mp) = false) ∧
    ((∀ p, 1 ≤ p → p < mp → next p = true) → stopPage next mp = mp) ∧
    queries (apiLoop next mp) = visits (apiLoop next mp) ∧
    clicks (apiLoop next mp) = (queries (apiLoop next mp)).filter next := by
  have hb := stopPageFrom_bounds next mp 1 h1
  have hv : visits (cliLoop next mp) = List.range' 1 (stopPage next mp) := by
    unfold cliLoop
    rw [visits_cliLoopAux next mp (mp + 1) 1 h1 (by omega)]
    unfold stopPage
    congr 1
  have hspec : (stopPage next mp < mp → next (stopPage next mp) = false) ∧
      ((∀ p, 1 ≤ p → p < mp → next p = true) → stopPage next mp = mp) := by
    unfold stopPage stopPageFrom
    rcases hf : (List.range' 1 (mp - 1)).find? (fun p => !(next p)) with _ | p
    · exact ⟨fun hcon => absurd (show mp < mp from hcon) (lt_irrefl mp), fun _ => rfl⟩
    · have hm := List.mem_of_find?_eq_some hf
      rw [List.mem_range'_1] at hm
      have hp := List.find?_some hf
      rw [Bool.not_eq_eq_eq_not, Bool.not_true] at hp
      refine ⟨fun _ => hp, fun hall => ?_⟩
      have := hall p hm.1 (by omega)
      rw [this] at hp
      cases hp
  exact ⟨hv, queries_cliLoopAux next mp (mp + 1) 1, clicks_cliLoopAux next mp (mp + 1) 1,
    hb.1, hb.2, hspec.1, hspec.2,
    queries_apiLoopAux next mp (mp + 1) 1, clicks_apiLoopAux next mp (mp + 1) 1⟩

/-- Witness for the amended C3: three configured pages with a next control
only on page 1 — the loop visits pages 1 and 2 and stops. -/
theorem C3_page_loop_amended_witness :
    visits (cliLoop (fun p => decide (p = 1)) 3) =
      List.range' 1 (stopPage (fun p => decide (p = 1)) 3) :=
  (C3_page_loop_amended (fun p => decide (p = 1)) 3 (by decide)).1

/-- Counterexample to C3 as stated: with one configured page and a next
control present, the API loop (`spider.py`, cited by the claim) looks up the
next-page control on page 1 — the last configured page — and even clicks it,
while the claim says the lookup happens only on pages other than the last;
the CLI loop shows the claimed behaviour. -/
theorem C3_last_page_lookup_counterexample :
    apiLoop (fun _ => true) 1 = [PageEv.visit 1, PageEv.query 1, PageEv.click 1] ∧
    cliLoop (fun _ => true) 1 = [PageEv.visit 1] :=
  ⟨rfl, rfl⟩

lemma find?_match_append {α : Type} (p : α → Bool) :
    ∀ (l1 l2 : List α), (l1 ++ l2).find? p =
      match l1.find? p with
      | some a => some a
      | Option.none => l2.find? p
  | [], _ => rfl
  | a :: t, l2 => by
    by_cases h : p a
    · simp [List.find?_cons, h]
    · simp [List.find?_cons, h, find?_match_append p t l2]

lemma save_to_db_rows_extend (md5 : List Char → List Char) (l : List RawItem) :
    ∀ st : Store, ∃ ext, (save_to_db md5 st l).2.rows = st.rows ++ ext := by
  induction l with
  | nil => intro st; exact ⟨[], by simp [save_to_db]⟩
  | cons item rest ih =>
    intro st
    rcases hgc : findRow st (dedup_key md5 item.link) with _ | row
    · rcases ih (insertRow st (dedup_key md5 item.link) item) with ⟨ext, hext⟩
      refine ⟨[newRowOf st (dedup_key md5 item.link) item] ++ ext, ?_⟩
      simp only [save_to_db, get_or_create, hgc]
      rcases hrec : save_to_db md5 (insertRow st (dedup_key md5 item.link) item) rest
        with ⟨⟨n, ids⟩, st3⟩
      rw [hrec] at hext
      simp only [insertRow, List.append_assoc] at hext
      simpa using hext
    · rcases ih st with ⟨ext, hext⟩
      refine ⟨ext, ?_⟩
      simp only [save_to_db, get_or_create, hgc]
      rcases hrec : save_to_db md5 st rest with ⟨⟨n, ids⟩, st3⟩
      rw [hrec] at hext
      simpa using hext

lemma findRow_save_isSome (md5 : List Char → List Char) (l : List RawItem)
    (st : Store) (k : List Char) (h : (findRow st k).isSome = true) :
    (findRow (save_to_db md5 st l).2 k).isSome = true := by
  rcases save_to_db_rows_extend md5 l st with ⟨ext, hext⟩
  unfold findRow at h ⊢
  rw [hext, find?_match_append]
  rcases hf : st.rows.find? (fun row => row.linkHash == k) with _ | row
  · rw [hf] at h
    cases h
  · rw [hf]
    exact rfl

lemma save_to_db_all_present (md5 : List Char → List Char) (l : List RawItem) :
    ∀ st : Store, (∀ i ∈ l, (findRow st (dedup_key md5 i.link)).isSome = true) →
      save_to_db md5 st l = ((0, []), st) := by
  induction l with
  | nil => intro st _; rfl
  | cons item rest ih =>
    intro st h
    have hhead := h item (by simp)
    rcases hgc : findRow st (dedup_key md5 item.link) with _ | row
    · rw [hgc] at hhead
      cases hhead
    · simp only [save_to_db, get_or_create, hgc]
      rw [ih st fun i hi => h i (by simp [hi])]
      rfl

lemma save_to_db_fresh (md5 : List Char → List Char) (l : List RawItem) :
    ∀ st : Store,
      (l.map fun i => dedup_key md5 i.link).Nodup →
      (∀ i ∈ l, findRow st (dedup_key md5 i.link) = Option.none) →
      (save_to_db md5 st l).1.1 = l.length ∧
      (∀ i ∈ l, (findRow (save_to_db md5 st l).2 (dedup_key md5 i.link)).isSome = true) := by
  induction l with
  | nil => intro st _ _; exact ⟨rfl, by simp⟩
  | cons item rest ih =>
    intro st hnodup hfresh
    have hgc : findRow st (dedup_key md5 item.link) = Option.none := hfresh item (by simp)
    rw [List.map_cons, List.nodup_cons] at hnodup
    have hne : ∀ i ∈ rest, dedup_key md5 i.link ≠ dedup_key md5 item.link := by
      intro i hi he
      exact hnodup.1 (he ▸ List.mem_map_of_mem _ hi)
    have hfresh2 : ∀ i ∈ rest,
        findRow (insertRow st (dedup_key md5 item.link) item) (dedup_key md5 i.link) =
          Option.none := by
      intro i hi
      unfold findRow insertRow
      rw [find?_match_append]
      have h1 : st.rows.find? (fun row => row.linkHash == dedup_key md5 i.link) =
          Option.none := hfresh i (by simp [hi])
      rw [h1]
      simp only [List.find?_cons, List.find?_nil]
      rw [show (((newRowOf st (dedup_key md5 item.link) item).linkHash ==
        dedup_key md5 i.link)) = false from beq_eq_false_iff_ne.mpr
          fun he => hne i hi he.symm]
    obtain ⟨hcount, hpresent⟩ := ih (insertRow st (dedup_key md5 item.link) item)
      hnodup.2 hfresh2
    have hheadIn : (findRow (insertRow st (dedup_key md5 item.link) item)
        (dedup_key md5 item.link)).isSome = true := by
      unfold findRow insertRow
      rw [find?_match_append]
      have hgc2 : st.rows.find? (fun row => row.linkHash == dedup_key md5 item.link) =
          Option.none := hgc
      rw [hgc2]
      simp [List.find?_cons, newRowOf]
    constructor
    · simp only [save_to_db, get_or_create, hgc]
      rcases hrec : save_to_db md5 (insertRow st (dedup_key md5 item.link) item) rest
        with ⟨⟨n, ids⟩, st3⟩
      rw [hrec] at hcount
      simp only at hcount
      rw [if_pos trivial]
      show n + 1 = rest.length + 1
      omega
    · intro i hi
      rcases List.mem_cons.mp hi with rfl | hi2
      · simp only [save_to_db, get_or_create, hgc]
        rcases hrec : save_to_db md5 (insertRow st (dedup_key md5 i.link) i) rest
          with ⟨⟨n, ids⟩, st3⟩
        have := findRow_save_isSome md5 rest _ _ hheadIn
        rw [hrec] at this
        simpa using this
      · simp only [save_to_db, get_or_create, hgc]
        rcases hrec : save_to_db md5 (insertRow st (dedup_key md5 item.link) item) rest
          with ⟨⟨n, ids⟩, st3⟩
        have := hpresent i hi2
        rw [hrec] at this
        simpa using this

/-- C4: ingesting a list of records with pairwise-distinct dedup keys, none of
which is in the store yet, creates all of them (`new_count = N`); ingesting
the identical list again creates none (`new_count = 0`, empty id list). -/
theorem C4_ingest_twice_idempotent (md5 : List Char → List Char) (st : Store)
    (l : List RawItem)
    (hnodup : (l.map fun i => dedup_key md5 i.link).Nodup)
    (hfresh : ∀ i ∈ l, findRow st (dedup_key md5 i.link) = Option.none) :
    (save_to_db md5 st l).1.1 = l.length ∧
    (save_to_db md5 (save_to_db md5 st l).2 l).1 = (0, []) := by
  obtain ⟨hcount, hpresent⟩ := save_to_db_fresh md5 l st hnodup hfresh
  refine ⟨hcount, ?_⟩
  rw [save_to_db_all_present md5 l _ hpresent]

/-- C5: a record whose dedup key is already stored never overwrites the
stored row — after any later ingest, the lookup for that key still returns
exactly the row first written (all fields unchanged). -/
theorem C5_first_write_wins (md5 : List Char → List Char) (st : Store)
    (l : List RawItem) (k : List Char) (p : StoredProduct)
    (hp : findRow st k = some p) :
    findRow (save_to_db md5 st l).2 k = some p := by
  rcases save_to_db_rows_extend md5 l st with ⟨ext, hext⟩
  unfold findRow at hp ⊢
  rw [hext, find?_match_append, hp]

/-- Witness for C4: two fresh records with distinct keys — first ingest
creates 2, second ingest creates 0 with no ids. -/
theorem C4_ingest_twice_idempotent_witness :
    (save_to_db (fun s => s) emptyStore [wItem1, wItem2]).1.1 = 2 ∧
    (save_to_db (fun s => s)
      (save_to_db (fun s => s) emptyStore [wItem1, wItem2]).2 [wItem1, wItem2]).1 = (0, []) :=
  C4_ingest_twice_idempotent (fun s => s) emptyStore [wItem1, wItem2]
    (by decide) (fun _ _ => rfl)

/-- Witness for C5: re-ingesting a record with `wRow`'s key leaves the stored
row exactly as first written. -/
theorem C5_first_write_wins_witness :
    findRow (save_to_db (fun s => s) wStore [wItem1]).2 wRow.linkHash = some wRow :=
  C5_first_write_wins (fun s => s) wStore [wItem1] wRow.linkHash wRow rfl

/-- The embedded price parser agrees with every test vector of the source's
own `test_price_parser`, and the canonicalizer with the documented split
behaviour. -/
theorem model_matches_source_tests :
    parse_price_to_cents "¥1200".data = .ok 120000 ∧
    parse_price_to_cents "¥1200.00".data = .ok 120000 ∧
    parse_price_to_cents "¥1,200".data = .ok 120000 ∧
    parse_price_to_cents "¥2,500.50".data = .ok 250050 ∧
    parse_price_to_cents "1.2万".data = .ok 1200000 ∧
    parse_price_to_cents "¥1.2万".data = .ok 1200000 ∧
    parse_price_to_cents "12000".data = .ok 1200000 ∧
    parse_price_to_cents "价格异常".data = .ok (-1) ∧
    parse_price_to_cents "".data = .ok (-1) ∧
    parse_price_to_cents "¥".data = .ok (-1) ∧
    parse_price_to_cents "暂无价格".data = .ok (-1) ∧
    parse_price_to_cents "面议".data = .ok (-1) ∧
    parse_price_to_cents "免费".data = .ok (-1) ∧
    format_cents_to_display 1200000 = "¥1.2万".data ∧
    format_cents_to_display (-1) = "价格异常".data ∧
    get_link_unique_key "https://a.com/x?id=1&track=2&z=3".data = "https://a.com/x?id=1".data := by
  refine ⟨?_, ?_, ?_, ?_, ?_, ?_, ?_, ?_, ?_, ?_, ?_, ?_, ?_, ?_, ?_, ?_⟩ <;> decide

end XianyuSpider
